import Mathlib

/-!
Verification development for the AMW markup parser (src/amw_parser.c,
src/amw_json.c, src/amw.h).

Shallow embedding conventions:
* A line is a list of Unicode code points (`char32_t` in the C source),
  represented as `List Nat`.  `uw_char_at` beyond the end of a line is
  modelled as the sentinel 0, which matches no character the parser tests
  for (the UW collaborator is out of scope; no claim depends on the exact
  out-of-range value).
* The UW dynamic value system is modelled by the inductive `UVal`; in the C
  source statuses are themselves values (`UwResult` = `UwValue`), which the
  constructor `UVal.statusVal` captures.  `UwOK()` is `UVal.statusVal .ok`.
* Out-of-memory paths of the C source are not modelled (allocation always
  succeeds in the embedding); I/O errors of the line source are modelled by
  the source item `SrcItem.ioError`.
* Index-based scanning of the C source (`pos` into `current_line`) is
  translated, where a function only moves forward, to structural recursion
  over the suffix of the line starting at `pos`; an explicit `pos` argument
  is kept so that error positions stay faithful.
-/

/-- Lines of the markup, as lists of `char32_t` code points. -/
abbrev Line := List Nat

/-- Convenience conversion from a Lean string literal to a `Line`. -/
def toLine (s : String) : Line := s.data.map Char.toNat

/-- Model of `uw_isspace` restricted to the characters that can occur in
rtrimmed markup lines (ASCII space and tab). -/
def uw_isspace (c : Nat) : Bool := c == 32 || c == 9

/-- Model of `uw_isdigit`. -/
def uw_isdigit (c : Nat) : Bool := decide (48 ≤ c ∧ c ≤ 57)

/-- Model of `uw_string_rtrim`: strip trailing whitespace. -/
def rtrim (l : Line) : Line := (l.reverse.dropWhile uw_isspace).reverse

/-- Number of leading ASCII spaces of a line (the indent measured by
`read_line` via `uw_string_skip_spaces(line, 0)`). -/
def countLeadingSpaces (l : Line) : Nat := (l.takeWhile (fun c => c == 32)).length

/-- Model of `uw_string_skip_spaces`: first position at or after `pos`
holding a non-space character (or the length of the line). -/
def uw_string_skip_spaces (l : Line) (pos : Nat) : Nat :=
  pos + ((l.drop pos).takeWhile (fun c => c == 32)).length

/-- Model of `uw_char_at`; out-of-range accesses yield the sentinel 0. -/
def char_at (l : Line) (pos : Nat) : Nat := l.getD pos 0

/-- Model of `end_of_line` (amw_parser.c): position is beyond the line. -/
def end_of_line (l : Line) (pos : Nat) : Bool := decide (l.length ≤ pos)

/-- Status codes threaded through the parser.  `parseError` carries the
input line number, the input column and the description, as built by
`_amw_parser_error`.  `fuelExhausted` is an artifact of the embedding of
unbounded C loops by fuel; every theorem below supplies enough fuel for the
loops it runs, so this constructor never occurs in any result we prove
about. -/
inductive UwStatus where
  | ok
  | eofError
  | endOfBlock
  | ioError
  | fuelExhausted
  | parseError (line_number : Nat) (position : Nat) (description : String)
  deriving DecidableEq, Repr

/-- Date/time value produced by `parse_datetime` (field layout of
UwDateTime as used by the source). -/
structure DateTime where
  year : Nat
  month : Nat
  day : Nat
  hour : Nat
  minute : Nat
  second : Nat
  nanosecond : Nat
  gmt_offset : Int
  deriving DecidableEq, Repr

/-- Dynamic values of the UW value system, as far as the embedded part of
the parser produces them.  In the C source every function returns
`UwResult`, which is a `UwValue`; statuses are values, hence the
`statusVal` constructor. -/
inductive UVal where
  | null
  | bool (b : Bool)
  | signedInt (i : Int)
  | unsignedInt (n : Nat)
  | str (s : Line)
  | datetime (d : DateTime)
  | arr (items : List UVal)
  | statusVal (st : UwStatus)
  deriving Repr

/-- Model of `uw_error`: a value is an error iff it is a status whose code
is not success. -/
def uw_error : UVal → Bool
  | .statusVal st => decide (st ≠ .ok)
  | _ => false

/-- Prepend one produced character to the result of the remainder of an
unescape run; statuses pass through unchanged (they abandon the
accumulated string, exactly as the early `return` paths of
`_amw_unescape_line` do). -/
def unescape_cons (c : Nat) : UVal → UVal
  | .str s => .str (c :: s)
  | v => v

/-- Value of one hexadecimal digit, both letter cases accepted, in the
order the C source tests them. -/
def hexDigitVal (c : Nat) : Option Nat :=
  if 48 ≤ c ∧ c ≤ 57 then some (c - 48)
  else if 97 ≤ c ∧ c ≤ 102 then some (c - 97 + 10)
  else if 65 ≤ c ∧ c ≤ 70 then some (c - 65 + 10)
  else none

/-- The `parse_hex_value` loop of `_amw_unescape_line`: read exactly `n`
hexadecimal digits, accumulating `v <<= 4; v += digit`.  `p` is the
position of the next character to examine, used for error positions. -/
def hexLoop (lineNo : Nat) : List Nat → Nat → Nat → Nat → Except UwStatus Nat
  | _, _, 0, v => .ok v
  | [], p, _ + 1, _ => .error (.parseError lineNo p "Incomplete hexadecimal value")
  | c :: tl, p, n + 1, v =>
      match hexDigitVal c with
      | some d => hexLoop lineNo tl (p + 1) n (v * 16 + d)
      | none => .error (.parseError lineNo p "Bad hexadecimal value")

/-- The `case 'o'` loop of `_amw_unescape_line`: read 1 to 3 octal digits.
Returns the accumulated value and the number of characters consumed.
End of line before the first digit is an error; end of line after at least
one digit ends the sequence; a non-octal character is always an error. -/
def octalLoop (lineNo : Nat) : List Nat → Nat → Nat → Nat → Bool → Except UwStatus (Nat × Nat)
  | _, _, 0, v, _ => .ok (v, 3)
  | [], p, n + 1, v, first =>
      if first then .error (.parseError lineNo p "Incomplete octal value")
      else .ok (v, 3 - (n + 1))
  | c :: tl, p, n + 1, v, _ =>
      if 48 ≤ c ∧ c ≤ 55 then octalLoop lineNo tl (p + 1) n (v * 8 + (c - 48)) false
      else .error (.parseError lineNo p "Bad octal value")

/-- Model of `_amw_unescape_line` (amw_parser.c lines 458-591), translated
to recursion over the suffix of the line starting at `pos`.  Processing
stops at the first unescaped `quote` character or at end of line; the
result string is built through `unescape_cons`.  On a backslash that is the
last character of the line, the source appends the backslash to its local
result but then executes `return UwOK();`, returning the bare success
status instead of the accumulated string; the embedding reproduces this as
`.statusVal .ok`. -/
def unescape_line (quote lineNo : Nat) : Nat → List Nat → UVal
  | _pos, [] => .str []
  | pos, c :: rest =>
    if c = quote then .str []
    else if c ≠ 92 then unescape_cons c (unescape_line quote lineNo (pos + 1) rest)
    else
      match rest with
      | [] => .statusVal .ok
      | e :: rest2 =>
        if e = 39 ∨ e = 34 ∨ e = 63 ∨ e = 92 then
          unescape_cons e (unescape_line quote lineNo (pos + 2) rest2)
        else if e = 97 then unescape_cons 7 (unescape_line quote lineNo (pos + 2) rest2)
        else if e = 98 then unescape_cons 8 (unescape_line quote lineNo (pos + 2) rest2)
        else if e = 102 then unescape_cons 12 (unescape_line quote lineNo (pos + 2) rest2)
        else if e = 110 then unescape_cons 10 (unescape_line quote lineNo (pos + 2) rest2)
        else if e = 114 then unescape_cons 13 (unescape_line quote lineNo (pos + 2) rest2)
        else if e = 116 then unescape_cons 9 (unescape_line quote lineNo (pos + 2) rest2)
        else if e = 118 then unescape_cons 11 (unescape_line quote lineNo (pos + 2) rest2)
        else if e = 111 then
          match octalLoop lineNo rest2 (pos + 2) 3 0 true with
          | .error st => .statusVal st
          | .ok (v, k) => unescape_cons v (unescape_line quote lineNo (pos + 2 + k) (rest2.drop k))
        else if e = 120 then
          match hexLoop lineNo rest2 (pos + 2) 2 0 with
          | .error st => .statusVal st
          | .ok v => unescape_cons v (unescape_line quote lineNo (pos + 2 + 2) (rest2.drop 2))
        else if e = 117 then
          match hexLoop lineNo rest2 (pos + 2) 4 0 with
          | .error st => .statusVal st
          | .ok v => unescape_cons v (unescape_line quote lineNo (pos + 2 + 4) (rest2.drop 4))
        else if e = 85 then
          match hexLoop lineNo rest2 (pos + 2) 8 0 with
          | .error st => .statusVal st
          | .ok v => unescape_cons v (unescape_line quote lineNo (pos + 2 + 8) (rest2.drop 8))
        else unescape_cons 92 (unescape_cons e (unescape_line quote lineNo (pos + 2) rest2))
termination_by _pos l => l.length
decreasing_by
  all_goals simp_all [List.length_drop]
  all_goals omega

/-- One item produced by the line source collaborator: either a raw line or
an I/O error (`uw_read_line_inplace` returns ok, eof, or an I/O error; eof
is modelled by the list running out). -/
inductive SrcItem where
  | line (l : Line)
  | ioError
  deriving DecidableEq, Repr

/-- Parser state (struct AmwParser of amw.h).  The `markup` line source is
modelled by the remaining items `src` together with `next_line_no`, the
1-based number the next read will receive; `uw_unread_line` prepends the
pushed-back line and decrements `next_line_no`.  The JSON depth fields are
omitted: no embedded function reads them. -/
structure AmwParser where
  src : List SrcItem
  next_line_no : Nat
  current_line : Line
  current_indent : Nat
  line_number : Nat
  block_indent : Nat
  blocklevel : Nat
  max_blocklevel : Nat
  skip_comments : Bool
  eof : Bool
  deriving DecidableEq, Repr

/-- Block-parser functions (`AmwBlockParserFunc`): they consume parser
state and return a value (possibly a status). -/
abbrev BlockParserFunc := AmwParser → UVal × AmwParser

/-- Model of `is_comment_line`: the first non-space character of the
current line is `#` (AMW_COMMENT = 35). -/
def is_comment_line (s : AmwParser) : Bool :=
  char_at s.current_line s.current_indent == 35

/-- The reading loop of `_amw_read_block_line` (amw_parser.c lines
231-270), fused with `read_line` (lines 189-210): each iteration pops one
source item, rtrims it and measures its indent.  Empty and comment lines
are skipped while `skip_comments` holds; a blank line is returned as is; a
dedented comment is skipped; a dedented real line is pushed back
(`uw_unread_line`), `current_line` is truncated and end-of-block is
returned. -/
def rbl_loop : List SrcItem → AmwParser → UwStatus × AmwParser
  | [], s => (.endOfBlock, { s with src := [], eof := true, current_line := [] })
  | .ioError :: rest, s => (.ioError, { s with src := rest })
  | .line l :: rest, s =>
    let t := rtrim l
    let s1 : AmwParser :=
      { s with src := rest, current_line := t, current_indent := countLeadingSpaces t,
               line_number := s.next_line_no, next_line_no := s.next_line_no + 1 }
    if s1.skip_comments ∧ (t = [] ∨ is_comment_line s1 = true) then rbl_loop rest s1
    else
      let s2 := if s1.skip_comments then { s1 with skip_comments := false } else s1
      if t = [] then (.ok, s2)
      else if s2.block_indent ≤ s2.current_indent then (.ok, s2)
      else if is_comment_line s2 then rbl_loop rest s2
      else
        (.endOfBlock,
         { s2 with src := (SrcItem.line s2.current_line) :: rest,
                   next_line_no := s2.next_line_no - 1, current_line := [] })

/-- Model of `_amw_read_block_line`: once `eof` is sticky, nested blocks
keep receiving end-of-block while the top level receives end-of-file. -/
def read_block_line (s : AmwParser) : UwStatus × AmwParser :=
  if s.eof then (if s.blocklevel ≠ 0 then .endOfBlock else .eofError, s)
  else rbl_loop s.src s

/-- Model of `_amw_read_block` (amw_parser.c lines 273-295): collect the
lines of the current block, each taken from `block_indent` on.  The fuel
bounds the number of loop iterations; every iteration of the C loop
consumes at least one source line, so `src.length + 1` is always enough. -/
def read_block : Nat → List Line → AmwParser → Except UwStatus (List Line) × AmwParser
  | 0, _, s => (.error .fuelExhausted, s)
  | fuel + 1, acc, s =>
    let acc' := acc ++ [s.current_line.drop s.block_indent]
    let (st, s') := read_block_line s
    if st = .endOfBlock then (.ok acc', s')
    else if st ≠ .ok then (.error st, s')
    else read_block fuel acc' s'

/-- Model of `_amw_get_start_position`. -/
def get_start_position (s : AmwParser) : Nat :=
  if s.block_indent < s.current_indent then s.current_indent
  else uw_string_skip_spaces s.current_line s.block_indent

/-- Model of `_amw_comment_or_end_of_line`. -/
def comment_or_end_of_line (s : AmwParser) (pos : Nat) : Bool :=
  let p := uw_string_skip_spaces s.current_line pos
  end_of_line s.current_line p || char_at s.current_line p == 35

/-- Model of `isspace_or_eol_at`. -/
def isspace_or_eol_at (l : Line) (pos : Nat) : Bool :=
  end_of_line l pos || uw_isspace (char_at l pos)

/-- Model of `parse_nested_block` (amw_parser.c lines 297-322): save
`block_indent`, bump `blocklevel`, run the parser function, restore both. -/
def parse_nested_block (f : BlockParserFunc) (block_pos : Nat) (s : AmwParser) :
    UVal × AmwParser :=
  if s.max_blocklevel ≤ s.blocklevel then
    (.statusVal (.parseError s.line_number s.current_indent "Too many nested blocks"), s)
  else
    let saved := s.block_indent
    let s1 := { s with blocklevel := s.blocklevel + 1, block_indent := block_pos }
    let (r, s2) := f s1
    (r, { s2 with block_indent := saved, blocklevel := s2.blocklevel - 1 })

/-- Model of `parse_nested_block_from_next_line` (amw_parser.c lines
324-345): temporarily increment `block_indent`, read the next block line,
then parse a nested block at `block_indent + 1`. -/
def parse_nested_block_from_next_line (f : BlockParserFunc) (s : AmwParser) :
    UVal × AmwParser :=
  let s1 := { s with block_indent := s.block_indent + 1, skip_comments := true }
  let (st, s2) := read_block_line s1
  let s3 := { s2 with block_indent := s2.block_indent - 1 }
  if st = .endOfBlock then
    (.statusVal (.parseError s3.line_number s3.current_indent "Empty block"), s3)
  else if st ≠ .ok then (.statusVal st, s3)
  else parse_nested_block f (s3.block_indent + 1) s3

/-- Model of `uw_strchr`: first position at or after `start` holding
character `c`, if any. -/
def uw_strchr (l : Line) (c : Nat) (start : Nat) : Option Nat :=
  ((l.drop start).findIdx? (fun x => x == c)).map (· + start)

/-- Search loop of `_amw_find_closing_quote` (amw_parser.c lines 699-713):
a found quote immediately preceded by a backslash is skipped.  Each
iteration advances the start position by at least one, so fuel
`l.length + 1` (supplied by `find_closing_quote`) can never run out; the
fuel-exhausted answer `none` coincides with the not-found answer. -/
def fcq_loop : Nat → Line → Nat → Nat → Option Nat
  | 0, _, _, _ => none
  | fuel + 1, l, quote, start =>
    match uw_strchr l quote start with
    | none => none
    | some p =>
      if p ≠ 0 ∧ char_at l (p - 1) = 92 then fcq_loop fuel l quote (p + 1)
      else some p

/-- Model of `_amw_find_closing_quote`. -/
def find_closing_quote (l : Line) (quote : Nat) (start : Nat) : Option Nat :=
  fcq_loop (l.length + 1) l quote start

/-- Smallest leading-space count over a list of lines. -/
def minIndent : List Line → Nat
  | [] => 0
  | l :: ls => ls.foldl (fun m x => min m (countLeadingSpaces x)) (countLeadingSpaces l)

/-- Model of the collaborator `uw_array_dedent`, from the spec glossary:
dedent strips the longest common leading-space prefix from the lines.
The collaborator's exact treatment of all-blank lines when computing the
common prefix is not specified by the spec; the claims below only exercise
blocks whose lines each contain a non-space character, where any reading
agrees with this one. -/
def uw_array_dedent (lines : List Line) : List Line :=
  lines.map (fun l => l.drop (minIndent lines))

/-- The trailing-empty-line dropping loop of `parse_literal_string`
(amw_parser.c lines 437-444): remove the maximal suffix of empty lines. -/
def dropTrailingEmptyLines (ls : List Line) : List Line :=
  (ls.reverse.dropWhile List.isEmpty).reverse

/-- Model of `uw_array_join` with a one-character separator. -/
def uw_array_join (sep : Nat) : List Line → Line
  | [] => []
  | [l] => l
  | l :: l' :: ls => l ++ sep :: uw_array_join sep (l' :: ls)

/-- Normalization performed by `parse_literal_string` (amw_parser.c lines
431-455) on the lines of the block it has read: dedent, drop trailing
empty lines, append one empty line when more than one line remains (for
the ending line break), and join with `\n`. -/
def literal_normalize (lines : List Line) : Line :=
  let d := uw_array_dedent lines
  let d2 := dropTrailingEmptyLines d
  let d3 := if 1 < d2.length then d2 ++ [[]] else d2
  uw_array_join 10 d3

/-- Model of `parse_literal_string`: read the current block, then
normalize it.  The fuel feeds `read_block`. -/
def parse_literal_string (fuel : Nat) (s : AmwParser) : UVal × AmwParser :=
  match read_block fuel [] s with
  | (.error st, s') => (.statusVal st, s')
  | (.ok lines, s') => (.str (literal_normalize lines), s')

/-- Concatenation loop of `fold_lines` (amw_parser.c lines 647-685),
iterating over indices `i` in `[start_i, end_i)` with `k = end_i - i`
remaining steps.  An empty line (other than the first) has `\n` appended
to it and sets `prev_LF`; a line following an empty one gets no separator;
a line starting with whitespace gets no separator; otherwise a single
space is appended before the line.  When `quote` is nonzero each line is
unescaped with its own original line number.  When the unescape of a line
with a trailing lone backslash yields the bare `UwOK` status, the C source
passes that status value to `uw_string_append`; the collaborator's
behaviour on a non-string argument is unspecified and is modelled as
appending nothing (no claim exercises this path). -/
def fold_concat (quote : Nat) (lnos : List Nat) (lines : List Line) :
    Nat → Nat → Bool → Bool → Line → UVal
  | 0, _, _, _, acc => .str acc
  | k + 1, i, isFirst, prevLF, acc =>
    let line := lines.getD i []
    let step : Line × Bool × Line :=
      if isFirst then (line, prevLF, acc)
      else if line = [] then (line ++ [10], true, acc)
      else if prevLF then (line, false, acc)
      else if uw_isspace (char_at line 0) then (line, prevLF, acc)
      else (line, prevLF, acc ++ [32])
    match step with
    | (line', prevLF', acc') =>
      if quote ≠ 0 then
        match unescape_line quote (lnos.getD i 0) 0 line' with
        | .str u => fold_concat quote lnos lines k (i + 1) false prevLF' (acc' ++ u)
        | .statusVal .ok => fold_concat quote lnos lines k (i + 1) false prevLF' acc'
        | v => v
      else fold_concat quote lnos lines k (i + 1) false prevLF' (acc' ++ line')

/-- Model of `fold_lines` (amw_parser.c lines 593-687): dedent, locate the
first and last non-empty lines, and concatenate the range through
`fold_concat`. -/
def fold_lines (quote : Nat) (lnos : List Nat) (lines0 : List Line) : UVal :=
  let lines := uw_array_dedent lines0
  let len := lines.length
  let start_i := (lines.takeWhile List.isEmpty).length
  if start_i = len then .str []
  else
    let end_i := len - (lines.reverse.takeWhile List.isEmpty).length
    if end_i = 0 then .str []
    else fold_concat quote lnos lines (end_i - start_i) start_i true false []

/-- Outcome of the block-reading loop of `parse_quoted_string`. -/
inductive PqsRes where
  | finished (closing : Bool) (endPos : Nat) (lines : List Line) (lnos : List Nat)
  | failed (v : UVal)

/-- The block-reading loop of the multi-line branch of
`parse_quoted_string` (amw_parser.c lines 750-783).  Each iteration
records the current line number, then either finds the closing quote on
the current line (final line, rtrimmed substring up to the quote) or
appends the rest of the line and reads the next block line.  End of block
breaks the loop; any other read error is returned immediately — on that
path the C source returns without restoring `block_indent`/`blocklevel`.
`endPos` of a `finished` without closing quote is unset in the source and
modelled as 0. -/
def pqs_loop : Nat → Nat → Nat → List Line → List Nat → AmwParser → PqsRes × AmwParser
  | 0, _, _, _, _, s => (.failed (.statusVal .fuelExhausted), s)
  | fuel + 1, quote, bi, lines, lnos, s =>
    let lnos' := lnos ++ [s.line_number]
    match find_closing_quote s.current_line quote bi with
    | some p =>
      let finalLine := rtrim ((s.current_line.take p).drop bi)
      (.finished true (p + 1) (lines ++ [finalLine]) lnos', s)
    | none =>
      let lines' := lines ++ [s.current_line.drop bi]
      let (st, s') := read_block_line s
      if st = .endOfBlock then (.finished false 0 lines' lnos', s')
      else if st = .ok then pqs_loop fuel quote bi lines' lnos' s'
      else (.failed (.statusVal st), s')

/-- Model of `parse_quoted_string` (amw_parser.c lines 715-811).  Returns
the parsed value, the position after the closing quote (`*end_pos`; 0 when
the source leaves it unset) and the final parser state.  In the single-line
case the line is unescaped in place.  In the multi-line case the parser
state is switched to a nested block at `opening_quote_pos + 1`; on normal
loop exit `block_indent`/`blocklevel` are restored and, if no closing
quote was seen, one more line is examined for a lone closing quote at the
opening column; an early error return from the loop propagates with the
nested-block fields still in place, as in the source. -/
def parse_quoted_string (fuel : Nat) (oq : Nat) (s : AmwParser) :
    UVal × Nat × AmwParser :=
  let quote := char_at s.current_line oq
  match find_closing_quote s.current_line quote (oq + 1) with
  | some p =>
    (unescape_line quote s.line_number (oq + 1) (s.current_line.drop (oq + 1)), p + 1, s)
  | none =>
    let saved := s.block_indent
    let s1 := { s with block_indent := oq + 1, blocklevel := s.blocklevel + 1 }
    match pqs_loop fuel quote (oq + 1) [] [] s1 with
    | (.failed v, s2) => (v, 0, s2)
    | (.finished closing ep lines lnos, s2) =>
      let s3 := { s2 with block_indent := saved, blocklevel := s2.blocklevel - 1 }
      if closing then (fold_lines quote lnos lines, ep, s3)
      else
        let (st, s4) := read_block_line s3
        if st = .endOfBlock then
          (.statusVal (.parseError s4.line_number s4.current_indent
             "String has no closing quote"), 0, s4)
        else if s4.current_indent = oq ∧ char_at s4.current_line s4.current_indent = quote then
          (fold_lines quote lnos lines, oq + 1, s4)
        else
          (.statusVal (.parseError s4.line_number s4.current_indent
             "String has no closing quote"), 0, s4)

/-- The item-parsing phase of one iteration of the `parse_list` loop
(amw_parser.c lines 1276-1283): if nothing but whitespace or a comment
follows the hyphen, the item's value comes from the next line; otherwise it
is a nested block starting right after `"- "`. -/
def parse_list_item_phase (f : BlockParserFunc) (item_indent : Nat) (s : AmwParser) :
    UVal × AmwParser :=
  if comment_or_end_of_line s (item_indent + 1) then
    parse_nested_block_from_next_line f s
  else parse_nested_block f (item_indent + 1 + 1) s

/-- The loop of `parse_list` (amw_parser.c lines 1266-1300), parameterized
by the value-parser function exactly as the source passes
`value_parser_func` through a function pointer.  After each item the next
block line must end the block or start at `item_indent`; any other indent
produces the "Bad indentation of list item" error at that line's indent.
The fuel bounds the number of items. -/
def parse_list_loop (f : BlockParserFunc) :
    Nat → Nat → List UVal → AmwParser → UVal × AmwParser
  | 0, _, _, s => (.statusVal .fuelExhausted, s)
  | fuel + 1, item_indent, acc, s =>
    if isspace_or_eol_at s.current_line (item_indent + 1) then
      match parse_list_item_phase f item_indent s with
      | (item, s1) =>
        if uw_error item then (item, s1)
        else
          let acc' := acc ++ [item]
          let (st, s2) := read_block_line s1
          if st = .endOfBlock then (.arr acc', s2)
          else if st ≠ .ok then (.statusVal st, s2)
          else if s2.current_indent ≠ item_indent then
            (.statusVal (.parseError s2.line_number s2.current_indent
               "Bad indentation of list item"), s2)
          else parse_list_loop f fuel item_indent acc' s2
    else (.statusVal (.parseError s.line_number item_indent "Bad list item"), s)

/-- Model of `parse_list` (amw_parser.c lines 1247-1303): the indent of the
first item — the column of its `-` marker, `_amw_get_start_position` at
entry — is fixed for the whole list. -/
def parse_list (f : BlockParserFunc) (fuel : Nat) (s : AmwParser) : UVal × AmwParser :=
  parse_list_loop f fuel (get_start_position s) [] s

/-- Initial parser state built by `amw_create_parser` (struct allocated
zero-filled, then `blocklevel = 1`, `max_blocklevel = 100`,
`skip_comments = true`). -/
def initState (src : List SrcItem) : AmwParser :=
  { src := src, next_line_no := 1, current_line := [], current_indent := 0,
    line_number := 0, block_indent := 0, blocklevel := 1, max_blocklevel := 100,
    skip_comments := true, eof := false }

/-- Model of `amw_parse` (amw_parser.c lines 1686-1712), parameterized by
the top-level value parser exactly where the source calls
`value_parser_func`: read the first block line (converting end-of-block at
end-of-file into the end-of-file error), parse the top-level value, then
require that no further data follows. -/
def amw_parse (f : BlockParserFunc) (src : List SrcItem) : UVal :=
  let s0 := initState src
  let (st, s1) := read_block_line s0
  if st = .endOfBlock ∧ s1.eof then .statusVal .eofError
  else if st ≠ .ok then .statusVal st
  else
    let (r, s2) := f s1
    if uw_error r then r
    else
      let (st2, s3) := read_block_line s2
      if s3.eof then r
      else if st2 ≠ .ok then .statusVal st2
      else .statusVal (.parseError s3.line_number s3.current_indent
             "Extra data after parsed value")

/-- Model of `amw_parse_json` (amw_json.c lines 256-287), parameterized by
the JSON value parser exactly where the source calls
`_amw_parse_json_value(parser, 0, &end_pos)` (the function returns the
value, the end position and the state).  Unlike `amw_parse`, the status of
the first `_amw_read_block_line` is returned verbatim when it is any
error — including `AMW_END_OF_BLOCK`. -/
def amw_parse_json (jf : AmwParser → UVal × Nat × AmwParser) (src : List SrcItem) : UVal :=
  let s0 := initState src
  let (st, s1) := read_block_line s0
  if st ≠ .ok then .statusVal st
  else
    let (r, ep, s2) := jf s1
    if uw_error r then r
    else if ¬ comment_or_end_of_line s2 ep then
      .statusVal (.parseError s2.line_number s2.current_indent
        "Extra data after parsed value")
    else
      let (st2, s3) := read_block_line s2
      if s3.eof then r
      else if st2 ≠ .ok then .statusVal st2
      else .statusVal (.parseError s3.line_number s3.current_indent
             "Extra data after parsed value")

/-- Fixed-width digit-field loop used throughout `parse_datetime`
("for (i = 0; i < N; i++, pos++) { ... }"): read exactly `n` decimal
digits, accumulating `acc = acc * 10 + digit`; a non-digit (including the
out-of-range sentinel past end of line) fails at its position. -/
def parse_fixed_digits (l : Line) : Nat → Nat → Nat → Except Nat (Nat × Nat)
  | pos, 0, acc => .ok (acc, pos)
  | pos, n + 1, acc =>
    let c := char_at l pos
    if uw_isdigit c then parse_fixed_digits l (pos + 1) n (acc * 10 + (c - 48))
    else .error pos

/-- Model of `parse_nanosecond_frac` (amw_parser.c lines 813-855): consume
up to 9 decimal digits; a tenth digit fails at its position.  The C loop
counts digits in `i` and scales by `order[i] = 10^(9-i)`; the `if (i == 0)`
statement in the source has an empty body, so zero digits are accepted and
scale to `0 * 10^9 = 0`.  On success the error value is not used; on
failure the returned number is the position of the tenth digit. -/
def parse_nanosecond_frac (l : Line) (p : Nat) : Except Nat (Nat × Nat) :=
  let ds := (l.drop p).takeWhile uw_isdigit
  if 9 < ds.length then .error (p + 9)
  else .ok (ds.foldl (fun a c => a * 10 + (c - 48)) 0 * 10 ^ (9 - ds.length), p + ds.length)

/-- The `end_of_datetime` tail of `parse_datetime` (amw_parser.c lines
986-992): after the value only whitespace and an optional comment may
follow. -/
def dt_finish (lineNo : Nat) (l : Line) (pos : Nat) (d : DateTime) : UVal :=
  let q := uw_string_skip_spaces l pos
  if ¬ end_of_line l q ∧ char_at l q ≠ 35 then
    .statusVal (.parseError lineNo q "Bad date/time")
  else .datetime d

/-- The time-of-day part of `parse_datetime` (amw_parser.c lines 908-992):
`HH[:]MM[:]SS`, optional `.frac`, optional zone `Z` or `±HH[:][MM]`.
The zone offset is computed exactly as the source writes it:
`sign * offset_hour * 60 + offset_minute` (the sign multiplies only the
hour term). -/
def parse_datetime_time (lineNo : Nat) (l : Line) (pt : Nat) (d : DateTime) : UVal :=
  let bad := fun (pos : Nat) => UVal.statusVal (.parseError lineNo pos "Bad date/time")
  match parse_fixed_digits l pt 2 0 with
  | .error ep => bad ep
  | .ok (hour, t1) =>
    let t2 := if char_at l t1 = 58 then t1 + 1 else t1
    match parse_fixed_digits l t2 2 0 with
    | .error ep => bad ep
    | .ok (minute, t3) =>
      let t4 := if char_at l t3 = 58 then t3 + 1 else t3
      match parse_fixed_digits l t4 2 0 with
      | .error ep => bad ep
      | .ok (second, t5) =>
        let d := { d with hour := hour, minute := minute, second := second }
        let c := char_at l t5
        if c = 90 then dt_finish lineNo l (t5 + 1) d
        else
          let afterFrac : Except Nat (DateTime × Nat) :=
            if c = 46 then
              match parse_nanosecond_frac l (t5 + 1) with
              | .error ep => .error ep
              | .ok (ns, t6) => .ok ({ d with nanosecond := ns }, t6)
            else .ok (d, t5)
          match afterFrac with
          | .error ep => bad ep
          | .ok (d, t6) =>
            let c2 := char_at l t6
            if c2 = 90 then dt_finish lineNo l (t6 + 1) d
            else if c2 = 43 ∨ c2 = 45 then
              let sign : Int := if c2 = 45 then -1 else 1
              match parse_fixed_digits l (t6 + 1) 2 0 with
              | .error ep => bad ep
              | .ok (oh, u1) =>
                let u2 := if char_at l u1 = 58 then u1 + 1 else u1
                if ¬ end_of_line l u2 ∧ uw_isdigit (char_at l u2) then
                  match parse_fixed_digits l u2 2 0 with
                  | .error ep => bad ep
                  | .ok (om, u3) =>
                    dt_finish lineNo l u3
                      { d with gmt_offset := sign * (oh : Int) * 60 + (om : Int) }
                else
                  dt_finish lineNo l u2
                    { d with gmt_offset := sign * (oh : Int) * 60 + 0 }
            else dt_finish lineNo l t6 d

/-- Model of `parse_datetime` (amw_parser.c lines 857-993) on a line,
starting at `p0` (the caller's `_amw_get_start_position`):
`YYYY[-]MM[-]DD`, then either end of value, or `T` or whitespace followed
by the time of day. -/
def parse_datetime_line (lineNo : Nat) (l : Line) (p0 : Nat) : UVal :=
  let bad := fun (pos : Nat) => UVal.statusVal (.parseError lineNo pos "Bad date/time")
  match parse_fixed_digits l p0 4 0 with
  | .error ep => bad ep
  | .ok (year, p1) =>
    let p2 := if char_at l p1 = 45 then p1 + 1 else p1
    match parse_fixed_digits l p2 2 0 with
    | .error ep => bad ep
    | .ok (month, p3) =>
      let p4 := if char_at l p3 = 45 then p3 + 1 else p3
      match parse_fixed_digits l p4 2 0 with
      | .error ep => bad ep
      | .ok (day, p5) =>
        let d : DateTime :=
          { year := year, month := month, day := day, hour := 0, minute := 0,
            second := 0, nanosecond := 0, gmt_offset := 0 }
        if char_at l p5 = 84 then parse_datetime_time lineNo l (p5 + 1) d
        else
          let p6 := uw_string_skip_spaces l p5
          if end_of_line l p6 then dt_finish lineNo l p6 d
          else if char_at l p6 = 35 then dt_finish lineNo l p6 d
          else parse_datetime_time lineNo l p6 d

/-- Model of `parse_datetime` as a block-parser function over the parser
state. -/
def parse_datetime (s : AmwParser) : UVal × AmwParser :=
  (parse_datetime_line s.line_number s.current_line (get_start_position s), s)

/-- UW_SIGNED_MAX of the UW collaborator: the largest value of the 64-bit
signed integer type backing `UwType_Signed`. -/
def UW_SIGNED_MAX : Nat := 2 ^ 63 - 1

/-- Conversion of a 64-bit unsigned value to the signed type, as the C
cast in `UwSigned(-base.unsigned_value)` behaves (two's complement). -/
def toSigned64 (x : Nat) : Int :=
  if x < 2 ^ 63 then (x : Int) else (x : Int) - 2 ^ 64

/-- The integer-production tail of `_amw_parse_number` (amw_parser.c lines
1227-1244): given the sign and the unsigned magnitude `m` accumulated
without overflow, produce the signed/unsigned integer value or the
"Integer overflow" error.  `-base.unsigned_value` is 64-bit unsigned
negation `(2^64 - m) mod 2^64`, converted to the signed type. -/
def amw_make_integer (lineNo startPos : Nat) (sign : Int) (m : Nat) : UVal :=
  if UW_SIGNED_MAX < m then
    if sign < 0 then .statusVal (.parseError lineNo startPos "Integer overflow")
    else .unsignedInt m
  else
    if sign < 0 ∧ m ≠ 0 then .signedInt (toSigned64 ((2 ^ 64 - m) % 2 ^ 64))
    else .signedInt (m : Int)

/-- Value of a list of hexadecimal digits read in base 16. -/
def hexVal (ds : List Nat) : Nat :=
  ds.foldl (fun a c => a * 16 + (hexDigitVal c).getD 0) 0

/-- A line is blank (empty after rtrim) or a comment line (first non-space
character `#`), exactly as `_amw_read_block_line` classifies it while
`skip_comments` holds. -/
def is_blank_or_comment_line (l : Line) : Bool :=
  let t := rtrim l
  t.isEmpty || char_at t (countLeadingSpaces t) == 35

/-- A source item that the initial skip-comments phase always skips. -/
def is_blank_or_comment_item : SrcItem → Bool
  | .line l => is_blank_or_comment_line l
  | .ioError => false

/-- A block-parser function returning null without touching the state;
used only to instantiate universally quantified parser-function arguments
in witnesses. -/
def constNullFunc : BlockParserFunc := fun s => (UVal.null, s)

/-- Parser state for the claim about unrestored `block_indent`: a
multi-line quoted string opened at column 0 of `"abc`, with the line
source about to fail with an I/O error. -/
def qsErrState : AmwParser :=
  { src := [SrcItem.ioError], next_line_no := 2, current_line := [34, 97, 98, 99],
    current_indent := 0, line_number := 1, block_indent := 0, blocklevel := 1,
    max_blocklevel := 100, skip_comments := false, eof := false }

/-- Parser state for the list-indentation witness: the current line is
`- x` at column 0 and the next source line is `  - y` (indent 2). -/
def listWitState : AmwParser :=
  { src := [SrcItem.line [32, 32, 45, 32, 121]], next_line_no := 2,
    current_line := [45, 32, 120], current_indent := 0, line_number := 1,
    block_indent := 0, blocklevel := 1, max_blocklevel := 100,
    skip_comments := false, eof := false }

/-- The state after the item phase of `listWitState` (the nested block for
`x` parsed by `constNullFunc`, indents restored). -/
def listWitState1 : AmwParser :=
  { src := [SrcItem.line [32, 32, 45, 32, 121]], next_line_no := 2,
    current_line := [45, 32, 120], current_indent := 0, line_number := 1,
    block_indent := 0, blocklevel := 1, max_blocklevel := 100,
    skip_comments := false, eof := false }

/-- The state after reading the misindented line `  - y`. -/
def listWitState2 : AmwParser :=
  { src := [], next_line_no := 3, current_line := [32, 32, 45, 32, 121],
    current_indent := 2, line_number := 2, block_indent := 0, blocklevel := 1,
    max_blocklevel := 100, skip_comments := false, eof := false }

/-! Helper lemmas. -/

theorem foldl_min_le_cls (ls : List Line) : ∀ a : Nat,
    ls.foldl (fun m x => min m (countLeadingSpaces x)) a ≤ a ∧
    ∀ x ∈ ls, ls.foldl (fun m x => min m (countLeadingSpaces x)) a ≤ countLeadingSpaces x := by
  induction ls with
  | nil => intro a; exact ⟨le_refl a, by simp⟩
  | cons b t ih =>
    intro a
    refine ⟨?_, ?_⟩
    · calc t.foldl (fun m x => min m (countLeadingSpaces x)) (min a (countLeadingSpaces b))
          ≤ min a (countLeadingSpaces b) := (ih _).1
        _ ≤ a := min_le_left _ _
    · intro x hx
      rcases List.mem_cons.mp hx with rfl | hx
      · calc t.foldl (fun m x => min m (countLeadingSpaces x)) (min a (countLeadingSpaces x))
            ≤ min a (countLeadingSpaces x) := (ih _).1
          _ ≤ countLeadingSpaces x := min_le_right _ _
      · exact (ih _).2 x hx

theorem minIndent_le (lines : List Line) (l : Line) (hl : l ∈ lines) :
    minIndent lines ≤ countLeadingSpaces l := by
  cases lines with
  | nil => cases hl
  | cons a t =>
    unfold minIndent
    rcases List.mem_cons.mp hl with rfl | hl
    · exact le_trans (foldl_min_le_cls t (countLeadingSpaces l)).1 (le_refl _)
    · exact (foldl_min_le_cls t (countLeadingSpaces a)).2 l hl

theorem countLeadingSpaces_lt (l : Line) (h : ∃ c ∈ l, c ≠ 32) :
    countLeadingSpaces l < l.length := by
  induction l with
  | nil => simp at h
  | cons c t ih =>
    unfold countLeadingSpaces
    rw [List.takeWhile_cons]
    by_cases hc : (c == 32) = true
    · have hc' : c = 32 := by simpa using hc
      rcases h with ⟨x, hx, hxne⟩
      rcases List.mem_cons.mp hx with rfl | hx
      · exact absurd hc' hxne
      · have ht := ih ⟨x, hx, hxne⟩
        unfold countLeadingSpaces at ht
        simp [hc, ht]
    · simp [hc]

theorem dropTrailingEmptyLines_of_ne (ls : List Line) (h : ∀ l ∈ ls, l ≠ []) :
    dropTrailingEmptyLines ls = ls := by
  unfold dropTrailingEmptyLines
  cases hr : ls.reverse with
  | nil =>
    have : ls = [] := by simpa using congrArg List.reverse hr
    simp [this]
  | cons a t =>
    have ha : a ∈ ls := by
      rw [← List.mem_reverse, hr]; exact List.mem_cons_self a t
    have hne : a.isEmpty = false := by
      rcases a with _ | _
      · exact absurd rfl (h _ ha)
      · rfl
    rw [List.dropWhile_cons, hne]
    simp only [Bool.false_eq_true, if_false]
    rw [← hr, List.reverse_reverse]

theorem join_append_empty (xs : List Line) (hx : xs ≠ []) :
    uw_array_join 10 (xs ++ [[]]) = uw_array_join 10 xs ++ [10] := by
  induction xs with
  | nil => exact absurd rfl hx
  | cons a t ih =>
    cases t with
    | nil => simp [uw_array_join]
    | cons b t2 =>
      have ih' := ih (by simp)
      simp only [List.cons_append, List.append_eq, uw_array_join] at ih' ⊢
      rw [ih']
      simp

theorem hexLoop_append (lineNo : Nat) (ds rest : List Nat) : ∀ (p v : Nat),
    (∀ c ∈ ds, (hexDigitVal c).isSome) →
    hexLoop lineNo (ds ++ rest) p ds.length v
      = .ok (ds.foldl (fun a c => a * 16 + (hexDigitVal c).getD 0) v) := by
  induction ds with
  | nil => intro p v _; simp [hexLoop]
  | cons c dtl ih =>
    intro p v hall
    have hc := hall c (List.mem_cons_self c dtl)
    obtain ⟨d, hd⟩ := Option.isSome_iff_exists.mp hc
    simp only [List.cons_append, List.append_eq, List.length_cons, hexLoop, hd,
      List.foldl_cons, Option.getD_some]
    exact ih _ _ (fun x hx => hall x (List.mem_cons_of_mem c hx))

theorem rbl_loop_all_blank_or_comment (src : List SrcItem) : ∀ s : AmwParser,
    s.skip_comments = true → src.all is_blank_or_comment_item = true →
    ∃ s', rbl_loop src s = (UwStatus.endOfBlock, s') ∧ s'.eof = true := by
  induction src with
  | nil => intro s _ _; exact ⟨_, rfl, rfl⟩
  | cons it rest ih =>
    intro s hskip hall
    rw [List.all_cons, Bool.and_eq_true] at hall
    cases it with
    | ioError => simp [is_blank_or_comment_item] at hall
    | line l =>
      have hl : is_blank_or_comment_line l = true := by
        simpa [is_blank_or_comment_item] using hall.1
      unfold is_blank_or_comment_line at hl
      rw [Bool.or_eq_true] at hl
      simp only [rbl_loop]
      rw [if_pos ?hc]
      · exact ih _ (by simpa using hskip) hall.2
      case hc =>
        refine ⟨by simpa using hskip, ?_⟩
        rcases hl with h | h
        · exact Or.inl (by simpa [List.isEmpty_iff] using h)
        · exact Or.inr (by simpa [is_comment_line] using h)

/-! Claim theorems. -/

/-- C1: the claim states that when `_amw_unescape_line` meets a backslash
as the last character of the line it returns the accumulated string with a
lone backslash appended.  The code appends the backslash but then runs
`return UwOK();`, so the caller receives the bare success status instead
of any string: on the line `ab\` with quote `"` and start position 0 the
result is `UwOK`, not the string `ab\`. -/
theorem unescape_line_backslash_eol_returns_ok_status :
    unescape_line 34 1 0 (toLine "ab\\") = UVal.statusVal UwStatus.ok ∧
    unescape_line 34 1 0 (toLine "ab\\") ≠ UVal.str (toLine "ab\\") := by
  constructor
  · simp [toLine, unescape_line, unescape_cons]
  · simp [toLine, unescape_line, unescape_cons]

/-- C2: the claim states that `block_indent`/`blocklevel` are restored on
every exit path of a nested-block parse, including every error return.
In the multi-line branch of `parse_quoted_string` an error from
`_amw_read_block_line` (here: an I/O error of the line source, after the
opening line `"abc` at column 0) is returned before the restore code runs:
entry values are `block_indent = 0`, `blocklevel = 1`, but the state after
the error return carries `block_indent = 1`, `blocklevel = 2`. -/
theorem parse_quoted_string_error_leaves_block_indent_unrestored :
    qsErrState.block_indent = 0 ∧ qsErrState.blocklevel = 1 ∧
    (parse_quoted_string 5 0 qsErrState).1 = UVal.statusVal UwStatus.ioError ∧
    (parse_quoted_string 5 0 qsErrState).2.2.block_indent = 1 ∧
    (parse_quoted_string 5 0 qsErrState).2.2.blocklevel = 2 := by
  refine ⟨rfl, rfl, ?_, ?_, ?_⟩ <;> rfl

/-- C3: the claim states that neither entry point ever returns a status
with code AMW_END_OF_BLOCK.  `amw_parse` converts it into the end-of-file
error, but `amw_parse_json` propagates the status of its first
`_amw_read_block_line` verbatim, so for the empty document — and likewise
for a document holding only the comment line `# note` — the caller
receives the end-of-block status, whatever the JSON value parser is. -/
theorem amw_parse_json_returns_end_of_block_to_caller :
    ∀ jf : AmwParser → UVal × Nat × AmwParser,
      amw_parse_json jf [] = UVal.statusVal UwStatus.endOfBlock ∧
      amw_parse_json jf [SrcItem.line (toLine "# note")]
        = UVal.statusVal UwStatus.endOfBlock := by
  intro jf
  exact ⟨rfl, rfl⟩

/-- C4: the claim states that a `.` after the seconds followed by zero
fractional digits yields the parse error "Bad date/time".  The
`if (i == 0)` statement of `parse_nanosecond_frac` has an empty body, so
the input `2024-01-02 03:04:05.` parses successfully with nanosecond 0
instead of failing. -/
theorem parse_datetime_accepts_dot_with_no_fraction_digits :
    parse_datetime_line 1 (toLine "2024-01-02 03:04:05.") 0
      = UVal.datetime ⟨2024, 1, 2, 3, 4, 5, 0, 0⟩ := by
  rfl

/-- C5: the claim states that the zone `-05:30` yields
`gmt_offset_minutes = -330 = sign × (60 × HH + MM)`.  The source computes
`sign * offset_hour * 60 + offset_minute`, where the sign multiplies only
the hour term, so the parsed value carries -270. -/
theorem parse_datetime_zone_sign_applies_only_to_hours :
    parse_datetime_line 1 (toLine "2024-01-02 03:04:05-05:30") 0
      = UVal.datetime ⟨2024, 1, 2, 3, 4, 5, 0, -270⟩ := by
  rfl

/-- C6: for a non-float numeric literal whose magnitude `m` was
accumulated without overflow (`m` fits the 64-bit unsigned type), the
integer-production tail of `_amw_parse_number` yields: an "Integer
overflow" error when the sign is negative and `m` exceeds SignedMax; the
signed integer `-m` when the sign is negative and `m ≤ SignedMax`; the
signed integer `m` when the sign is non-negative and `m ≤ SignedMax`; and
the unsigned integer `m` when the sign is non-negative and
`m > SignedMax`. -/
theorem amw_parse_number_integer_sign_magnitude_cases
    (lineNo startPos : Nat) (sign : Int) (m : Nat) (hm : m < 2 ^ 64) :
    (sign < 0 → UW_SIGNED_MAX < m →
      amw_make_integer lineNo startPos sign m
        = .statusVal (.parseError lineNo startPos "Integer overflow")) ∧
    (sign < 0 → m ≤ UW_SIGNED_MAX →
      amw_make_integer lineNo startPos sign m = .signedInt (-(m : Int))) ∧
    (0 ≤ sign → m ≤ UW_SIGNED_MAX →
      amw_make_integer lineNo startPos sign m = .signedInt (m : Int)) ∧
    (0 ≤ sign → UW_SIGNED_MAX < m →
      amw_make_integer lineNo startPos sign m = .unsignedInt m) := by
  refine ⟨?_, ?_, ?_, ?_⟩
  · intro h1 h2
    simp only [amw_make_integer, if_pos h2, if_pos h1]
  · intro h1 h2
    have hlt : ¬ UW_SIGNED_MAX < m := not_lt.mpr h2
    by_cases hm0 : m = 0
    · subst hm0
      simp only [amw_make_integer, if_neg hlt]
      simp
    · simp only [amw_make_integer, if_neg hlt, if_pos (And.intro h1 hm0)]
      congr 1
      unfold toSigned64
      rw [Nat.mod_eq_of_lt (by omega)]
      rw [if_neg (by unfold UW_SIGNED_MAX at h2; omega)]
      have : m ≤ 2 ^ 64 := le_of_lt hm
      omega
  · intro h1 h2
    have hlt : ¬ UW_SIGNED_MAX < m := not_lt.mpr h2
    have hns : ¬ (sign < 0 ∧ m ≠ 0) := by
      rintro ⟨hlt0, -⟩; omega
    simp only [amw_make_integer, if_neg hlt, if_neg hns]
  · intro h1 h2
    have hns : ¬ sign < 0 := not_lt.mpr h1
    simp only [amw_make_integer, if_pos h2, if_neg hns]

/-- Witness for C6 at a concrete input: sign -1 and magnitude 3 give the
signed integer -3. -/
theorem amw_parse_number_integer_sign_magnitude_cases_witness :
    amw_make_integer 1 0 (-1) 3 = UVal.signedInt (-3) :=
  (amw_parse_number_integer_sign_magnitude_cases 1 0 (-1) 3 (by norm_num)).2.1
    (by norm_num) (by norm_num [UW_SIGNED_MAX])

/-- C7: for a block of at least two lines, each holding a non-space
character (block lines are rtrimmed by the line reader, so a non-empty
block line always holds one), the `literal` conversion specifier produces
exactly the lines with their longest common leading-space prefix
stripped, joined by `\n`, followed by one trailing `\n`. -/
theorem parse_literal_string_dedent_join_trailing_newline (lines : List Line)
    (hlen : 2 ≤ lines.length)
    (hne : ∀ l ∈ lines, ∃ c ∈ l, c ≠ 32) :
    literal_normalize lines = uw_array_join 10 (uw_array_dedent lines) ++ [10] := by
  have hd : ∀ l ∈ uw_array_dedent lines, l ≠ [] := by
    intro l hl
    unfold uw_array_dedent at hl
    rcases List.mem_map.mp hl with ⟨x, hx, rfl⟩
    have h1 : minIndent lines ≤ countLeadingSpaces x := minIndent_le lines x hx
    have h2 : countLeadingSpaces x < x.length := countLeadingSpaces_lt x (hne x hx)
    intro hcon
    rw [List.drop_eq_nil_iff] at hcon
    omega
  have hlen2 : 1 < (uw_array_dedent lines).length := by
    unfold uw_array_dedent; rw [List.length_map]; omega
  simp only [literal_normalize]
  rw [dropTrailingEmptyLines_of_ne _ hd, if_pos hlen2]
  exact join_append_empty _ (by
    intro hcon
    rw [hcon] at hlen2
    simp at hlen2)

/-- Witness for C7 at a concrete block: the two lines `  ab` and `  c`. -/
theorem parse_literal_string_dedent_join_trailing_newline_witness :
    literal_normalize [[32, 32, 97, 98], [32, 32, 99]]
      = uw_array_join 10 (uw_array_dedent [[32, 32, 97, 98], [32, 32, 99]]) ++ [10] :=
  parse_literal_string_dedent_join_trailing_newline _ (by decide) (by decide)

/-- C8: inside a single-line quoted string (quote `"` or `'`), an escape
sequence `\xNN`, `\uNNNN` or `\UNNNNNNNN` with exactly 2, 4 or 8
hexadecimal digits (either letter case) produces in the unescaped result
the character whose code point is the value of those digits read in base
16, after which unescaping continues past the digits. -/
theorem unescape_line_hex_escape_codepoint
    (quote lineNo pos u n : Nat) (ds rest : List Nat)
    (hq : quote = 34 ∨ quote = 39)
    (hu : (u = 120 ∧ n = 2) ∨ (u = 117 ∧ n = 4) ∨ (u = 85 ∧ n = 8))
    (hlen : ds.length = n)
    (hhex : ∀ c ∈ ds, (hexDigitVal c).isSome) :
    unescape_line quote lineNo pos (92 :: u :: (ds ++ rest))
      = unescape_cons (hexVal ds) (unescape_line quote lineNo (pos + 2 + n) rest) := by
  have h92 : ¬ (92 = quote) := by rcases hq with rfl | rfl <;> decide
  have hL := hexLoop_append lineNo ds rest (pos + 2) 0 hhex
  rw [hlen] at hL
  have hdrop : (ds ++ rest).drop n = rest := by
    rw [← hlen]; exact List.drop_left ds rest
  rcases hu with ⟨rfl, rfl⟩ | ⟨rfl, rfl⟩ | ⟨rfl, rfl⟩ <;>
    · rw [unescape_line, if_neg h92]
      norm_num
      rw [hL, hdrop]
      rfl

/-- Witness for C8 at a concrete input: the line `\x41a` in a
double-quoted string unescapes to `Aa` (code point 65 from digits `41`). -/
theorem unescape_line_hex_escape_codepoint_witness :
    unescape_line 34 1 0 [92, 120, 52, 49, 97] = UVal.str [65, 97] := by
  have h := unescape_line_hex_escape_codepoint 34 1 0 120 2 [52, 49] [97]
    (Or.inl rfl) (Or.inl ⟨rfl, rfl⟩) rfl (by decide)
  rw [show ([92, 120, 52, 49, 97] : List Nat) = 92 :: 120 :: ([52, 49] ++ [97]) from rfl, h]
  simp [unescape_line, unescape_cons, hexVal, hexDigitVal]

/-- C9: inside `parse_list`, after an item's value has been parsed
successfully, if the next block line is read successfully (the block did
not end) and its indent differs from the fixed item indent — the column of
the first item's `-` marker, which `parse_list` fixes as
`_amw_get_start_position` at entry — then the list parse fails with the
parse error "Bad indentation of list item" positioned at that line's
indent column. -/
theorem parse_list_sibling_indent_mismatch_error
    (f : BlockParserFunc) (fuel item_indent : Nat)
    (acc : List UVal) (s s1 s2 : AmwParser) (item : UVal)
    (h1 : isspace_or_eol_at s.current_line (item_indent + 1) = true)
    (hp : parse_list_item_phase f item_indent s = (item, s1))
    (h2 : uw_error item = false)
    (hr : read_block_line s1 = (UwStatus.ok, s2))
    (h4 : s2.current_indent ≠ item_indent) :
    parse_list_loop f (fuel + 1) item_indent acc s
      = (.statusVal (.parseError s2.line_number s2.current_indent
          "Bad indentation of list item"), s2) := by
  simp only [parse_list_loop, h1, if_true, hp, h2, hr]
  simp [h4]

/-- Witness for C9 at a concrete input: current line `- x` with the first
item at column 0, next line `  - y` at column 2; the result is the "Bad
indentation of list item" error at line 2, column 2. -/
theorem parse_list_sibling_indent_mismatch_error_witness :
    parse_list_loop constNullFunc 1 0 [] listWitState
      = (.statusVal (.parseError 2 2 "Bad indentation of list item"), listWitState2) := by
  have h := parse_list_sibling_indent_mismatch_error constNullFunc 0 0 []
    listWitState listWitState1 listWitState2 UVal.null
    (by decide) (by rfl) (by decide) (by rfl) (by decide)
  simpa [listWitState2] using h

/-- C10: for an input with no lines at all, or whose lines are all blank or
comment lines, `amw_parse` returns the end-of-file error status —
independently of the top-level value parser, which is never invoked. -/
theorem amw_parse_blank_or_comment_only_returns_eof
    (f : BlockParserFunc) (src : List SrcItem)
    (hall : src.all is_blank_or_comment_item = true) :
    amw_parse f src = UVal.statusVal UwStatus.eofError := by
  obtain ⟨s', h1, h2⟩ := rbl_loop_all_blank_or_comment src (initState src) rfl hall
  have hrb : read_block_line (initState src) = (UwStatus.endOfBlock, s') := by
    unfold read_block_line
    rw [if_neg (by simp [initState])]
    exact h1
  simp [amw_parse, hrb, h2]

/-- Witness for C10 at a concrete input: the comment line `# c` followed
by a line of spaces. -/
theorem amw_parse_blank_or_comment_only_returns_eof_witness :
    amw_parse constNullFunc [SrcItem.line (toLine "# c"), SrcItem.line (toLine "   ")]
      = UVal.statusVal UwStatus.eofError :=
  amw_parse_blank_or_comment_only_returns_eof constNullFunc _ (by decide)
